/-
  Verification of gs2mesh_utils/colmap_utils.py (gs2mesh repository).

  Shallow embedding of the module's functions over Lean types:
  * frame extraction (`extract_frames`) over an abstract video (number of
    readable frames), with Python integer `%` semantics (`Int.fmod`, and a
    `ZeroDivisionError` for a zero divisor);
  * rotation representation conversions (`matrix_to_quaternion`,
    `quaternion_to_matrix`), which the source delegates to
    `scipy.spatial.transform.Rotation`; scipy's documented algorithms
    (`from_matrix` branch-by-largest-pivot construction, normalisation, and
    the standard quaternion-to-matrix formula in scalar-last x,y,z,w order)
    are embedded over ℝ, idealising floating point as real arithmetic;
  * the COLMAP images.txt reader (`poses_from_file`) and the MobileBrick
    known-pose file synthesizer (`create_mobile_brick_colmap_files`), with
    directories embedded as association lists of file names and parsed
    contents, and written text files embedded as lists of structured lines.
-/
import Mathlib

namespace ColmapUtils

/-! ### Frame extraction (`extract_frames`) -/

/-- Messages printed by `extract_frames` (`print` calls in the source),
abstracted from their formatted text. -/
inductive Msg where
  | creatingFolder
  | folderAlreadyExists
  | videoInfo
  | extracting
  | doneExtracting
  | couldNotOpen
  deriving DecidableEq, Repr

/-- Python `f"{count:05}"`: decimal representation left-padded with zeros to
a minimum width of 5 characters. -/
def fmt05 (n : Nat) : String :=
  let s := toString n
  String.mk (List.replicate (5 - s.length) '0') ++ s

/-- The file name written for source frame number `count`:
`f"IMG_{count:05}.png"`. -/
def frameName (count : Nat) : String :=
  "IMG_" ++ fmt05 count ++ ".png"

/-- Python `a % b` on integers: floor-division remainder (`Int.fmod`), and a
`ZeroDivisionError` when `b = 0`. -/
def pymod (a b : Int) : Option Int :=
  if b = 0 then none else some (Int.fmod a b)

/-- The `while success:` loop of `extract_frames`: `n` readable frames remain,
`count` is the 0-indexed frame counter.  Returns the names of the image files
written, or the uncaught Python exception. -/
def framesLoop (interval : Int) : Nat → Nat → Except String (List String)
  | 0, _ => .ok []
  | n + 1, count =>
    match pymod count interval with
    | none => .error "ZeroDivisionError: integer division or modulo by zero"
    | some r =>
      match framesLoop interval n (count + 1) with
      | .error e => .error e
      | .ok rest => .ok (if r = 0 then frameName count :: rest else rest)

/-- Result of a call to `extract_frames`: the messages printed, and either the
list of frame files written (in writing order) or an uncaught exception. -/
structure ExtractResult where
  printed : List Msg
  result : Except String (List String)
  deriving Repr

/-- `extract_frames(video_path, output_folder, interval, verbose)`.
The output folder state is abstracted to `folderExists`; the video to
`video : Option Nat` (`none` when `cv2.VideoCapture` cannot open it, otherwise
the number of frames that read successfully before the stream ends). -/
def extract_frames (folderExists : Bool) (video : Option Nat) (interval : Int)
    (verbose : Bool) : ExtractResult :=
  let folderMsgs : List Msg :=
    if folderExists then
      if verbose then [.folderAlreadyExists] else []
    else
      if verbose then [.creatingFolder] else []
  match video with
  | none => ⟨folderMsgs ++ [.couldNotOpen], .ok []⟩
  | some n =>
    let preMsgs := folderMsgs ++ (if verbose then [.videoInfo] else [])
        ++ (if verbose then [.extracting] else [])
    let postMsgs := if verbose then [.doneExtracting] else []
    match framesLoop interval n 0 with
    | .error e => ⟨preMsgs, .error e⟩
    | .ok files => ⟨preMsgs ++ postMsgs, .ok files⟩

/-! ### Rotation representation conversions

The source's `matrix_to_quaternion` / `quaternion_to_matrix` delegate to
`scipy.spatial.transform.Rotation` (`from_matrix(...).as_quat()` and
`from_quat(...).as_matrix()`).  scipy's algorithms are embedded over ℝ:
`from_matrix` picks the largest of `m00, m11, m22, trace` (first index on
ties, as `np.argmax`), builds the corresponding unnormalised quaternion and
normalises it; `from_quat` normalises its input and applies the standard
unit-quaternion rotation formula.  Quaternions are scalar-last `(x, y, z, w)`,
scipy's convention. -/

/-- 3×3 real matrix, the type of rotation matrices in the embedding. -/
abbrev M3 := Matrix (Fin 3) (Fin 3) ℝ

/-- 4×4 real matrix in block form (3+1), the type of extrinsic matrices. -/
abbrev M4 := Matrix (Fin 3 ⊕ Fin 1) (Fin 3 ⊕ Fin 1) ℝ

/-- A quaternion in scipy's scalar-last component order `(x, y, z, w)`. -/
structure Quat where
  x : ℝ
  y : ℝ
  z : ℝ
  w : ℝ

/-- Squared Euclidean norm of a quaternion. -/
def qnorm2 (q : Quat) : ℝ := q.x ^ 2 + q.y ^ 2 + q.z ^ 2 + q.w ^ 2

/-- Normalisation `quat / norm(quat)` performed by scipy both in
`from_quat` and at the end of `from_matrix`. -/
noncomputable def qnormalize (q : Quat) : Quat :=
  ⟨q.x / Real.sqrt (qnorm2 q), q.y / Real.sqrt (qnorm2 q),
   q.z / Real.sqrt (qnorm2 q), q.w / Real.sqrt (qnorm2 q)⟩

/-- scipy's `as_matrix` formula for an (assumed unit) quaternion. -/
def unitQuatToMatrix (q : Quat) : M3 :=
  !![q.x ^ 2 - q.y ^ 2 - q.z ^ 2 + q.w ^ 2, 2 * (q.x * q.y - q.z * q.w),
       2 * (q.x * q.z + q.y * q.w);
     2 * (q.x * q.y + q.z * q.w), -q.x ^ 2 + q.y ^ 2 - q.z ^ 2 + q.w ^ 2,
       2 * (q.y * q.z - q.x * q.w);
     2 * (q.x * q.z - q.y * q.w), 2 * (q.y * q.z + q.x * q.w),
       -q.x ^ 2 - q.y ^ 2 + q.z ^ 2 + q.w ^ 2]

/-- `quaternion_to_matrix(quaternion)` = `R.from_quat(quaternion).as_matrix()`:
scipy normalises the quaternion, then applies the unit formula. -/
noncomputable def quaternion_to_matrix (q : Quat) : M3 :=
  unitQuatToMatrix (qnormalize q)

open scoped Classical in
/-- The unnormalised quaternion built by scipy's `from_matrix`: the decision
vector is `[m00, m11, m22, trace]`, the branch is its `np.argmax` (first
maximal index), and the branch formulas are scipy's. -/
noncomputable def rawQuat (M : M3) : Quat :=
  let t := M 0 0 + M 1 1 + M 2 2
  if M 0 0 ≥ M 1 1 ∧ M 0 0 ≥ M 2 2 ∧ M 0 0 ≥ t then
    ⟨1 - t + 2 * M 0 0, M 1 0 + M 0 1, M 2 0 + M 0 2, M 2 1 - M 1 2⟩
  else if M 1 1 ≥ M 2 2 ∧ M 1 1 ≥ t then
    ⟨M 0 1 + M 1 0, 1 - t + 2 * M 1 1, M 2 1 + M 1 2, M 0 2 - M 2 0⟩
  else if M 2 2 ≥ t then
    ⟨M 0 2 + M 2 0, M 1 2 + M 2 1, 1 - t + 2 * M 2 2, M 1 0 - M 0 1⟩
  else
    ⟨M 2 1 - M 1 2, M 0 2 - M 2 0, M 1 0 - M 0 1, 1 + t⟩

/-- `matrix_to_quaternion(rotation_matrix)` =
`R.from_matrix(rotation_matrix).as_quat()`. -/
noncomputable def matrix_to_quaternion (M : M3) : Quat :=
  qnormalize (rawQuat M)

/-- A valid proper rotation matrix: orthonormal with determinant `+1`. -/
def isRotation (M : M3) : Prop := M.transpose * M = 1 ∧ M.det = 1

/-! ### Sorting by key

`sorted(...)` (Python's stable sort) applied to directory listings and to
`extrinsics.items()`, embedded as a stable insertion sort on a key. -/

/-- Insert `x` into a list before the first element with key not smaller. -/
def insertOn {α : Type*} {κ : Type*} [LinearOrder κ] (f : α → κ) (x : α) :
    List α → List α
  | [] => [x]
  | y :: ys => if f x ≤ f y then x :: y :: ys else y :: insertOn f x ys

/-- Stable insertion sort by key `f`, embedding Python's `sorted`. -/
def sortOn {α : Type*} {κ : Type*} [LinearOrder κ] (f : α → κ) :
    List α → List α
  | [] => []
  | x :: xs => insertOn f x (sortOn f xs)

/-! ### Pose reader (`poses_from_file`) -/

/-- One parsed record of a COLMAP `images.txt` file, as produced by the
vendored `read_images_text` (quaternion `qvec` in COLMAP's scalar-first
`(w, x, y, z)` order, translation `tvec`). -/
structure ColmapImage where
  qvec : Fin 4 → ℝ
  tvec : Fin 3 → ℝ

/-- Modelled from the spec: `camera_utils.quaternion.q_to_R` comes from the
vendored `third_party/visualization/camera_utils` module, which is not under
`src/`.  Per the spec ("converts each quaternion to a rotation matrix"), it is
the standard rotation-matrix formula for a unit quaternion in COLMAP's
scalar-first `(w, x, y, z)` component order. -/
def q_to_R (q : Fin 4 → ℝ) : M3 :=
  !![1 - 2 * (q 2 ^ 2 + q 3 ^ 2), 2 * (q 1 * q 2 - q 0 * q 3),
       2 * (q 0 * q 2 + q 1 * q 3);
     2 * (q 1 * q 2 + q 0 * q 3), 1 - 2 * (q 1 ^ 2 + q 3 ^ 2),
       2 * (q 2 * q 3 - q 0 * q 1);
     2 * (q 1 * q 3 - q 0 * q 2), 2 * (q 0 * q 1 + q 2 * q 3),
       1 - 2 * (q 1 ^ 2 + q 2 ^ 2)]

/-- `torch.cat([Rs, tvecs[..., None]], dim=-1)` for one pose: the 3×4 matrix
with rotation in the first three columns and translation as the last one. -/
def catRT (Rm : M3) (t : Fin 3 → ℝ) : Matrix (Fin 3) (Fin 4) ℝ :=
  Matrix.of fun i j => if h : (j : ℕ) < 3 then Rm i ⟨j, h⟩ else t i

/-- Modelled from the spec (the underlying reader `read_images_text` is the
vendored `third_party/colmap_runner` module, not under `src/`): the file is
given as its parse result, `.error` when the file is missing or malformed
(the reader "is expected to raise on malformed input"), `.ok` with the list
of `(image_id, image)` records (in file order, distinct ids) otherwise.

`poses_from_file(extrinsic_file)` itself follows the source: sort the records
by image id (`OrderedDict(sorted(extrinsics.items()))`), stack `qvec`s and
`tvec`s (`np.stack` raises `ValueError` on an empty sequence), convert each
quaternion with `q_to_R` and append the translation column. -/
noncomputable def poses_from_file
    (parsed : Except String (List (Nat × ColmapImage))) :
    Except String (List (Matrix (Fin 3) (Fin 4) ℝ)) :=
  match parsed with
  | .error e => .error e
  | .ok extrinsics =>
    let images := sortOn Prod.fst extrinsics
    if images.isEmpty then
      .error "ValueError: need at least one array to stack"
    else
      let qvecs := images.map fun p => p.2.qvec
      let tvecs := images.map fun p => p.2.tvec
      let Rs := qvecs.map q_to_R
      .ok (List.zipWith catRT Rs tvecs)

/-! ### Known-pose file synthesizer (`create_mobile_brick_colmap_files`)

Directories are embedded as association lists from file name to parsed
numeric content (`np.loadtxt` results); the three written text files as lists
of structured lines. -/

/-- One line of the written `images.txt`. -/
inductive ImagesLine where
  | comment (text : String)
  | record (imageId : Nat) (qw qx qy qz tx ty tz : ℝ) (cameraId : Nat)
      (name : String)
  | blank

/-- One line of the written `cameras.txt`. -/
inductive CamerasLine where
  | comment (text : String)
  | record (cameraId : Nat) (model : String) (width height : Nat)
      (params : List ℝ)

/-- The record line written for the `i`-th (0-based) extrinsic/image pair:
`extrinsic = np.linalg.inv(extrinsic)`, `qx, qy, qz, qw =
matrix_to_quaternion(extrinsic[:3, :3])` (scipy returns `(x, y, z, w)`),
`tx, ty, tz = extrinsic[:3, 3]`, written as
`{i+1} {qw} {qx} {qy} {qz} {tx} {ty} {tz} {i+1} {image_file}`. -/
noncomputable def mkImageRecord (i : Nat) (E : M4) (imageFile : String) :
    ImagesLine :=
  let inv := E⁻¹
  let q := matrix_to_quaternion inv.toBlocks₁₁
  .record (i + 1) q.w q.x q.y q.z
    (inv.toBlocks₁₂ 0 0) (inv.toBlocks₁₂ 1 0) (inv.toBlocks₁₂ 2 0)
    (i + 1) imageFile

open scoped Classical in
/-- The loop `for i, (extrinsic_file, image_file) in
enumerate(zip(extrinsics_files, image_files))` writing `images.txt` records:
each iteration inverts the extrinsic (`np.linalg.inv` raises `LinAlgError` on
a singular matrix) and writes a record line followed by a blank
observation line. -/
noncomputable def imagesLoop : Nat → List ((String × M4) × String) →
    Except String (List ImagesLine)
  | _, [] => .ok []
  | i, ((_, E), imageFile) :: rest =>
    if E.det = 0 then .error "numpy.linalg.LinAlgError: Singular matrix"
    else
      match imagesLoop (i + 1) rest with
      | .error e => .error e
      | .ok ls => .ok (mkImageRecord i E imageFile :: .blank :: ls)

/-- The loop `for i, (intrinsic_file, image_file) in
enumerate(zip(extrinsics_files, image_files))` writing `cameras.txt` records:
note the source draws the file name from `extrinsics_files`; the intrinsic
content is loaded from the intrinsics directory under that name
(`FileNotFoundError` when absent). -/
noncomputable def camerasLoop (intrinsicDir : List (String × M3)) :
    Nat → List ((String × M4) × String) → Except String (List CamerasLine)
  | _, [] => .ok []
  | i, ((intrinsicFile, _), _) :: rest =>
    match intrinsicDir.lookup intrinsicFile with
    | none => .error "FileNotFoundError"
    | some K =>
      match camerasLoop intrinsicDir (i + 1) rest with
      | .error e => .error e
      | .ok ls =>
        .ok (.record (i + 1) "PINHOLE" 1920 1440
          [K 0 0, K 1 1, K 0 2, K 1 2] :: ls)

/-- Header comment lines written to `images.txt`. -/
def imagesHeader : List ImagesLine :=
  [.comment "# Image list with two lines of data per image:",
   .comment "#   IMAGE_ID, QW, QX, QY, QZ, TX, TY, TZ, CAMERA_ID, NAME",
   .comment "#   POINTS2D[] as (X, Y, POINT3D_ID)"]

/-- Header comment lines written to `cameras.txt`. -/
def camerasHeader : List CamerasLine :=
  [.comment "# Camera list with one line of data per camera:",
   .comment "#   CAMERA_ID, MODEL, WIDTH, HEIGHT, PARAMS[]"]

/-- A rigid camera-to-world extrinsic `[R t; 0 1]` as a 4×4 block matrix. -/
def rigid (Rm : M3) (tv : Matrix (Fin 3) (Fin 1) ℝ) : M4 :=
  Matrix.fromBlocks Rm tv 0 1

/-- `create_mobile_brick_colmap_files(orig_dir, colmap_name)`: list the three
directories, sort each file list lexicographically, write `images.txt` from
`zip(extrinsics_files, image_files)`, `cameras.txt` from the same zip (with
intrinsics looked up in the intrinsics directory by extrinsic file name), and
an empty `points3D.txt`.  The intermediate `intrinsics_files` listing is
computed but, as in the source, never used. -/
noncomputable def create_mobile_brick_colmap_files
    (poseDir : List (String × M4)) (intrinsicDir : List (String × M3))
    (imagesDir : List String) :
    Except String (List ImagesLine × List CamerasLine × List String) :=
  let extrinsics_files := sortOn Prod.fst poseDir
  let _intrinsics_files := sortOn Prod.fst intrinsicDir
  let image_files := sortOn id imagesDir
  match imagesLoop 0 (extrinsics_files.zip image_files) with
  | .error e => .error e
  | .ok imgLines =>
    match camerasLoop intrinsicDir 0 (extrinsics_files.zip image_files) with
    | .error e => .error e
    | .ok camLines =>
      .ok (imagesHeader ++ imgLines, camerasHeader ++ camLines, [])

/-- A concrete one-file pose directory, used by witnesses. -/
noncomputable def samplePoseDir : List (String × M4) :=
  [("000000.txt", rigid 1 0)]

/-- A concrete one-file intrinsics directory, used by witnesses. -/
def sampleIntrDir : List (String × M3) := [("000000.txt", 1)]

/-- A concrete one-file images directory, used by witnesses. -/
def sampleImagesDir : List String := ["000000.jpg"]

/-- A concrete parsed image record, used by witnesses. -/
def sampleImage : ColmapImage := ⟨![1, 0, 0, 0], ![0, 0, 0]⟩

/-- A second concrete parsed image record, used by witnesses. -/
def sampleImage2 : ColmapImage := ⟨![0, 1, 0, 0], ![1, 2, 3]⟩

/-- The scalar consequences of `isRotation` for the nine entries
`a b c; d e f; g h i` of a rotation matrix: rows and columns are orthonormal,
and (from `adjugate M = Mᵀ`, which holds exactly when `M` is a proper
rotation) every entry equals its cofactor. -/
structure RotEqs (a b c d e f g h i : ℝ) : Prop where
  r0 : a ^ 2 + b ^ 2 + c ^ 2 = 1
  r1 : d ^ 2 + e ^ 2 + f ^ 2 = 1
  r2 : g ^ 2 + h ^ 2 + i ^ 2 = 1
  d01 : a * d + b * e + c * f = 0
  d02 : a * g + b * h + c * i = 0
  d12 : d * g + e * h + f * i = 0
  c0 : a ^ 2 + d ^ 2 + g ^ 2 = 1
  c1 : b ^ 2 + e ^ 2 + h ^ 2 = 1
  c2 : c ^ 2 + f ^ 2 + i ^ 2 = 1
  e01 : a * b + d * e + g * h = 0
  e02 : a * c + d * f + g * i = 0
  e12 : b * c + e * f + h * i = 0
  ka : a = e * i - f * h
  kb : b = f * g - d * i
  kc : c = d * h - e * g
  kd : d = c * h - b * i
  ke : e = a * i - c * g
  kf : f = b * g - a * h
  kg : g = b * f - c * e
  kh : h = c * d - a * f
  ki : i = a * e - b * d

/-! ## Lemmas and claim theorems -/

/-! ### Sorting infrastructure -/

theorem insertOn_perm {α : Type*} {κ : Type*} [LinearOrder κ] (f : α → κ)
    (x : α) (l : List α) : List.Perm (insertOn f x l) (x :: l) := by
  induction l with
  | nil => rfl
  | cons y ys ih =>
    by_cases h : f x ≤ f y
    · simp [insertOn, h]
    · simp only [insertOn, if_neg h]
      exact (ih.cons y).trans (List.Perm.swap x y ys)

theorem sortOn_perm {α : Type*} {κ : Type*} [LinearOrder κ] (f : α → κ)
    (l : List α) : List.Perm (sortOn f l) l := by
  induction l with
  | nil => rfl
  | cons x xs ih => exact (insertOn_perm f x (sortOn f xs)).trans (ih.cons x)

theorem insertOn_pairwise {α : Type*} {κ : Type*} [LinearOrder κ] (f : α → κ)
    (x : α) (l : List α) (h : l.Pairwise fun p q => f p ≤ f q) :
    (insertOn f x l).Pairwise fun p q => f p ≤ f q := by
  induction l with
  | nil => simp [insertOn]
  | cons y ys ih =>
    rcases List.pairwise_cons.mp h with ⟨hy, hys⟩
    by_cases hxy : f x ≤ f y
    · rw [show insertOn f x (y :: ys) = x :: y :: ys by
        simp [insertOn, hxy]]
      refine List.pairwise_cons.mpr ⟨?_, h⟩
      intro b hb
      rcases List.mem_cons.mp hb with rfl | hb'
      · exact hxy
      · exact le_trans hxy (hy _ hb')
    · rw [show insertOn f x (y :: ys) = y :: insertOn f x ys by
        simp [insertOn, hxy]]
      refine List.pairwise_cons.mpr ⟨?_, ih hys⟩
      intro b hb
      have hb' := (insertOn_perm f x ys).mem_iff.mp hb
      rcases List.mem_cons.mp hb' with rfl | hb''
      · exact le_of_not_le hxy
      · exact hy _ hb''

theorem sortOn_pairwise {α : Type*} {κ : Type*} [LinearOrder κ] (f : α → κ)
    (l : List α) : (sortOn f l).Pairwise fun p q => f p ≤ f q := by
  induction l with
  | nil => simp [sortOn]
  | cons x xs ih => exact insertOn_pairwise f x (sortOn f xs) ih

theorem sortOn_length {α : Type*} {κ : Type*} [LinearOrder κ] (f : α → κ)
    (l : List α) : (sortOn f l).length = l.length :=
  (sortOn_perm f l).length_eq

/-- Two permuted lists with duplicate-free keys have the same key-sorted
order: the canonical order Python's `sorted` produces is independent of the
listing order. -/
theorem sortOn_canonical {α : Type*} {κ : Type*} [LinearOrder κ] (f : α → κ)
    {l₁ l₂ : List α} (hperm : List.Perm l₁ l₂) (hnd : (l₁.map f).Nodup) :
    sortOn f l₁ = sortOn f l₂ := by
  haveI : IsAntisymm α fun p q => f p < f q :=
    ⟨fun a b h h' => absurd (lt_trans h h') (lt_irrefl _)⟩
  have hperm' : List.Perm (sortOn f l₁) (sortOn f l₂) :=
    (sortOn_perm f l₁).trans (hperm.trans (sortOn_perm f l₂).symm)
  have key : ∀ l : List α, (l.map f).Nodup →
      (sortOn f l).Pairwise fun p q => f p < f q := by
    intro l hl
    have h₁ : (sortOn f l).Pairwise fun p q => f p ≤ f q := sortOn_pairwise f l
    have h₂ : ((sortOn f l).map f).Nodup :=
      (((sortOn_perm f l).map f).nodup_iff).mpr hl
    have h₃ : (sortOn f l).Pairwise fun p q => f p ≠ f q :=
      List.pairwise_map.mp h₂
    exact (h₁.and h₃).imp fun h => lt_of_le_of_ne h.1 h.2
  exact List.eq_of_perm_of_sorted hperm' (key l₁ hnd)
    (key l₂ ((hperm.map f).nodup_iff.mp hnd))

/-! ### Frame extraction lemmas -/

/-- Python's `count % interval` for a natural count and positive interval is
the natural remainder. -/
theorem pymod_pos (c k : Nat) (hk : 1 ≤ k) :
    pymod (c : Int) (k : Int) = some ((c % k : Nat) : Int) := by
  have hk0 : (k : Int) ≠ 0 := by
    exact_mod_cast Nat.one_le_iff_ne_zero.mp hk
  simp only [pymod, if_neg hk0]
  exact congrArg some (Int.ofNat_fmod c k).symm

/-- Python's `count % (-1)` is `0` for every natural count. -/
theorem fmod_neg_one (c : Nat) : Int.fmod (c : Int) (-1) = 0 := by
  cases c with
  | zero => rfl
  | succ m =>
    show Int.fmod (Int.ofNat (m + 1)) (Int.negSucc 0) = 0
    show Int.subNatNat (m % 1) 0 = 0
    rw [Nat.mod_one]
    rfl

/-- Characterisation of the extraction loop for a positive interval: the
frames written are exactly those whose 0-indexed counter is a multiple of
the interval. -/
theorem framesLoop_pos (k : Nat) (hk : 1 ≤ k) (n : Nat) : ∀ c : Nat,
    framesLoop (k : Int) n c =
      .ok (((List.range' c n).filter fun m => m % k = 0).map frameName) := by
  induction n with
  | zero => intro c; rfl
  | succ n ih =>
    intro c
    have hr : List.range' c (n + 1) = c :: List.range' (c + 1) n := rfl
    rw [hr]
    show (match pymod (c : Int) (k : Int) with
      | none => Except.error "ZeroDivisionError: integer division or modulo by zero"
      | some r =>
        match framesLoop (k : Int) n (c + 1) with
        | .error e => .error e
        | .ok rest => .ok (if r = 0 then frameName c :: rest else rest)) = _
    rw [pymod_pos c k hk, ih (c + 1)]
    dsimp only
    by_cases h : c % k = 0
    · have h' : ((c % k : Nat) : Int) = 0 := by exact_mod_cast h
      rw [if_pos h']
      rw [List.filter_cons, if_pos (by simpa using h)]
      rfl
    · have h' : ((c % k : Nat) : Int) ≠ 0 := by exact_mod_cast h
      rw [if_neg h']
      rw [List.filter_cons, if_neg (by simpa using h)]

/-- The number of multiples of `k` in `[0, N)` is `⌈N / k⌉ = (N + k - 1) / k`. -/
theorem count_multiples (k : Nat) (hk : 1 ≤ k) : ∀ N : Nat,
    ((List.range N).filter fun m => m % k = 0).length = (N + k - 1) / k := by
  intro N
  induction N with
  | zero =>
    simp only [List.range_zero, List.filter_nil, List.length_nil,
      Nat.zero_add]
    rw [Nat.div_eq_of_lt (by omega)]
  | succ N ih =>
    rw [List.range_succ, List.filter_append, List.length_append, ih]
    have h1 : N + 1 + k - 1 = (N + k - 1) + 1 := by omega
    have h2 : N + k - 1 + 1 = N + k := by omega
    rw [h1, Nat.succ_div, h2]
    have h3 : (k ∣ N + k) ↔ (N % k = 0) := by
      rw [Nat.dvd_add_self_right]
      exact Nat.dvd_iff_mod_eq_zero
    by_cases h : N % k = 0
    · rw [if_pos (h3.mpr h)]
      simp [h]
    · rw [if_neg (fun hd => h (h3.mp hd))]
      simp [h]

/-- C2: for a video with `N` readable frames and a sampling interval
`k ≥ 1`, `extract_frames` writes exactly `⌈N / k⌉` image files, one for each
0-indexed source frame number that is a multiple of `k`, each named
`IMG_<frame number zero-padded to 5 digits>.png`. -/
theorem extract_frames_samples_every_kth (fe verbose : Bool) (N k : Nat)
    (hk : 1 ≤ k) :
    (extract_frames fe (some N) (k : Int) verbose).result =
      .ok (((List.range N).filter fun m => m % k = 0).map frameName) ∧
    (((List.range N).filter fun m => m % k = 0).map frameName).length =
      (N + k - 1) / k := by
  constructor
  · have h := framesLoop_pos k hk N 0
    rw [List.range_eq_range']
    simp only [extract_frames, h]
  · rw [List.length_map]
    exact count_multiples k hk N

/-- Witness for C2 at `N = 5`, `k = 2`: frames 0, 2, 4 are written,
`⌈5 / 2⌉ = 3` files. -/
theorem extract_frames_samples_every_kth_witness :
    (extract_frames false (some 5) ((2 : Nat) : Int) false).result =
      .ok (((List.range 5).filter fun m => m % 2 = 0).map frameName) ∧
    (((List.range 5).filter fun m => m % 2 = 0).map frameName).length =
      (5 + 2 - 1) / 2 :=
  extract_frames_samples_every_kth false false 5 2 (by decide)

/-- C6 counterexample: `extract_frames` does not validate the interval.
With `interval = -1` it proceeds into the frame-writing loop and writes
every frame, and with `interval = 0` the loop evaluates `count % 0`,
raising `ZeroDivisionError`. -/
theorem extract_frames_unguarded_interval_cex :
    (extract_frames false (some 2) (-1) false).result =
      .ok [frameName 0, frameName 1] ∧
    (extract_frames false (some 1) 0 false).result =
      .error "ZeroDivisionError: integer division or modulo by zero" :=
  ⟨rfl, rfl⟩

/-- C6 amended: `extract_frames` performs no interval validation.  With
`interval = 0` and at least one readable frame the loop evaluates
`count % 0` and the call fails with `ZeroDivisionError`; with
`interval = -1` it proceeds through the loop and writes every frame. -/
theorem extract_frames_unguarded_interval (fe verbose : Bool) (N : Nat)
    (hN : 1 ≤ N) :
    (extract_frames fe (some N) 0 verbose).result =
      .error "ZeroDivisionError: integer division or modulo by zero" ∧
    (extract_frames fe (some N) (-1) verbose).result =
      .ok ((List.range N).map frameName) := by
  constructor
  · obtain ⟨m, rfl⟩ := Nat.exists_eq_add_of_le hN
    have hfl : framesLoop 0 (1 + m) 0 =
        .error "ZeroDivisionError: integer division or modulo by zero" := by
      rw [show 1 + m = m + 1 by omega]
      rfl
    simp only [extract_frames, hfl]
  · have hloop : ∀ n c, framesLoop (-1) n c =
        .ok ((List.range' c n).map frameName) := by
      intro n
      induction n with
      | zero => intro c; rfl
      | succ n ih =>
        intro c
        have hc : pymod (c : Int) (-1) = some 0 := by
          rw [pymod, if_neg (by decide), fmod_neg_one c]
        show (match pymod (c : Int) (-1) with
          | none =>
            (Except.error
              "ZeroDivisionError: integer division or modulo by zero" :
              Except String (List String))
          | some r =>
            match framesLoop (-1) n (c + 1) with
            | .error e => .error e
            | .ok rest => .ok (if r = 0 then frameName c :: rest else rest)) = _
        rw [hc, ih (c + 1)]
        rfl
    rw [List.range_eq_range']
    simp only [extract_frames, hloop N 0]

/-- Witness for the amended C6 at `N = 1`. -/
theorem extract_frames_unguarded_interval_witness :
    (extract_frames false (some 1) 0 false).result =
      .error "ZeroDivisionError: integer division or modulo by zero" ∧
    (extract_frames false (some 1) (-1) false).result =
      .ok ((List.range 1).map frameName) :=
  extract_frames_unguarded_interval false false 1 (by decide)

/-- C7: when the video cannot be opened, `extract_frames` prints
`"Error: Could not open video."` and returns early: no exception is raised
and no frame file is written. -/
theorem extract_frames_open_failure (fe verbose : Bool) (interval : Int) :
    (extract_frames fe none interval verbose).result = .ok [] ∧
    Msg.couldNotOpen ∈ (extract_frames fe none interval verbose).printed := by
  refine ⟨rfl, ?_⟩
  show Msg.couldNotOpen ∈ _ ++ [Msg.couldNotOpen]
  simp

/-! ### Pose reader lemmas -/

theorem zipWith_map_same {α β γ δ : Type*} (f : β → γ → δ) (g : α → β)
    (h : α → γ) (l : List α) :
    List.zipWith f (l.map g) (l.map h) = l.map fun a => f (g a) (h a) := by
  induction l with
  | nil => rfl
  | cons x xs ih => simp [ih]

/-- Evaluation of `poses_from_file` on a successfully parsed non-empty
record list. -/
theorem poses_from_file_ok (recs : List (Nat × ColmapImage))
    (hne : recs ≠ []) :
    poses_from_file (.ok recs) =
      .ok ((sortOn Prod.fst recs).map fun p =>
        catRT (q_to_R p.2.qvec) p.2.tvec) := by
  have hs : (sortOn Prod.fst recs).isEmpty = false := by
    rw [List.isEmpty_eq_false]
    intro h
    have hp := sortOn_perm Prod.fst recs
    rw [h] at hp
    exact hne hp.symm.eq_nil
  simp only [poses_from_file, hs, Bool.false_eq_true, if_false]
  rw [List.map_map, zipWith_map_same]
  rfl

/-- C5: for a well-formed non-empty images-list file, `poses_from_file`
returns the per-image poses ordered by ascending image identifier, each pose
the 3×4 matrix `[q_to_R qvec | tvec]`. -/
theorem poses_from_file_sorted_poses (recs : List (Nat × ColmapImage))
    (hne : recs ≠ []) :
    poses_from_file (.ok recs) =
      .ok ((sortOn Prod.fst recs).map fun p =>
        catRT (q_to_R p.2.qvec) p.2.tvec) ∧
    ((sortOn Prod.fst recs).map Prod.fst).Pairwise (· ≤ ·) :=
  ⟨poses_from_file_ok recs hne,
   List.pairwise_map.mpr (sortOn_pairwise Prod.fst recs)⟩

/-- Witness for C5 on a concrete two-record parse result. -/
theorem poses_from_file_sorted_poses_witness :
    poses_from_file (.ok [(2, sampleImage), (1, sampleImage2)]) =
      .ok ((sortOn Prod.fst [(2, sampleImage), (1, sampleImage2)]).map fun p =>
        catRT (q_to_R p.2.qvec) p.2.tvec) ∧
    ((sortOn Prod.fst [(2, sampleImage), (1, sampleImage2)]).map
      Prod.fst).Pairwise (· ≤ ·) :=
  poses_from_file_sorted_poses [(2, sampleImage), (1, sampleImage2)]
    (by simp)

/-- C8: `poses_from_file` propagates a parse failure, fails on a file with no
image records (`np.stack` of an empty sequence raises `ValueError`), and
never returns an empty pose sequence. -/
theorem poses_from_file_error_paths
    (inp : Except String (List (Nat × ColmapImage))) :
    (∀ e, inp = .error e → poses_from_file inp = .error e) ∧
    (inp = .ok [] →
      poses_from_file inp = .error "ValueError: need at least one array to stack") ∧
    (∀ l, poses_from_file inp = .ok l → l ≠ []) := by
  refine ⟨?_, ?_, ?_⟩
  · rintro e rfl
    rfl
  · rintro rfl
    rfl
  · intro l h hl
    cases inp with
    | error e => exact Except.noConfusion h
    | ok recs =>
      cases hs : (sortOn Prod.fst recs).isEmpty with
      | true =>
        rw [poses_from_file] at h
        rw [hs] at h
        exact Except.noConfusion h
      | false =>
        rw [poses_from_file] at h
        rw [hs] at h
        simp only [Bool.false_eq_true, if_false] at h
        have hlen := congrArg List.length (Except.ok.inj h)
        rw [hl] at hlen
        simp only [List.length_zipWith, List.length_map, List.length_nil,
          min_self] at hlen
        rw [List.isEmpty_eq_false, ← List.length_pos_iff_ne_nil] at hs
        omega

/-- Witness for C8: a missing/malformed file's error is propagated, and an
empty record list is a `ValueError`. -/
theorem poses_from_file_error_paths_witness :
    poses_from_file (Except.error "missing images.txt") =
      .error "missing images.txt" ∧
    poses_from_file (.ok ([] : List (Nat × ColmapImage))) =
      .error "ValueError: need at least one array to stack" :=
  ⟨(poses_from_file_error_paths (.error "missing images.txt")).1 _ rfl,
   (poses_from_file_error_paths (.ok [])).2.1 rfl⟩

/-- C9: `poses_from_file` is deterministic: its output depends only on the
parsed record set (any two listing orders of the same records give identical
pose sequences), and the output order is sorted by image identifier. -/
theorem poses_from_file_deterministic (recs₁ recs₂ : List (Nat × ColmapImage))
    (hperm : List.Perm recs₁ recs₂) (hnd : (recs₁.map Prod.fst).Nodup) :
    poses_from_file (.ok recs₁) = poses_from_file (.ok recs₂) ∧
    ((sortOn Prod.fst recs₁).map Prod.fst).Pairwise (· ≤ ·) := by
  have hsort := sortOn_canonical Prod.fst hperm hnd
  constructor
  · simp only [poses_from_file, hsort]
  · exact List.pairwise_map.mpr (sortOn_pairwise Prod.fst recs₁)

/-- Witness for C9 on two listing orders of a concrete two-record set. -/
theorem poses_from_file_deterministic_witness :
    poses_from_file (.ok [(2, sampleImage), (1, sampleImage2)]) =
      poses_from_file (.ok [(1, sampleImage2), (2, sampleImage)]) ∧
    ((sortOn Prod.fst [(2, sampleImage), (1, sampleImage2)]).map
      Prod.fst).Pairwise (· ≤ ·) :=
  poses_from_file_deterministic _ _ (List.Perm.swap _ _ _) (by simp)

/-! ### Rotation round-trip: scalar consequences of `isRotation` -/

theorem isRotation_rotEqs (M : M3) (h : isRotation M) :
    RotEqs (M 0 0) (M 0 1) (M 0 2) (M 1 0) (M 1 1) (M 1 2)
      (M 2 0) (M 2 1) (M 2 2) := by
  obtain ⟨horth, hdet⟩ := h
  have hrow : M * M.transpose = 1 := Matrix.mul_eq_one_comm.mp horth
  have hadj : M.adjugate = M.transpose := by
    have h1 : M * M.adjugate = 1 := by
      rw [Matrix.mul_adjugate, hdet, one_smul]
    calc M.adjugate = (M.transpose * M) * M.adjugate := by
          rw [horth, Matrix.one_mul]
      _ = M.transpose * (M * M.adjugate) := by rw [Matrix.mul_assoc]
      _ = M.transpose := by rw [h1, Matrix.mul_one]
  rw [Matrix.adjugate_fin_three] at hadj
  have hc00 := congrFun (congrFun horth 0) 0
  have hc11 := congrFun (congrFun horth 1) 1
  have hc22 := congrFun (congrFun horth 2) 2
  have hc01 := congrFun (congrFun horth 0) 1
  have hc02 := congrFun (congrFun horth 0) 2
  have hc12 := congrFun (congrFun horth 1) 2
  have hr00 := congrFun (congrFun hrow 0) 0
  have hr11 := congrFun (congrFun hrow 1) 1
  have hr22 := congrFun (congrFun hrow 2) 2
  have hr01 := congrFun (congrFun hrow 0) 1
  have hr02 := congrFun (congrFun hrow 0) 2
  have hr12 := congrFun (congrFun hrow 1) 2
  simp only [Matrix.mul_apply, Fin.sum_univ_three, Matrix.transpose_apply,
    Matrix.one_apply_eq, Matrix.one_apply_ne (by decide : (0 : Fin 3) ≠ 1),
    Matrix.one_apply_ne (by decide : (0 : Fin 3) ≠ 2),
    Matrix.one_apply_ne (by decide : (1 : Fin 3) ≠ 2)]
    at hc00 hc11 hc22 hc01 hc02 hc12 hr00 hr11 hr22 hr01 hr02 hr12
  have ha00 := congrFun (congrFun hadj 0) 0
  have ha01 := congrFun (congrFun hadj 0) 1
  have ha02 := congrFun (congrFun hadj 0) 2
  have ha10 := congrFun (congrFun hadj 1) 0
  have ha11 := congrFun (congrFun hadj 1) 1
  have ha12 := congrFun (congrFun hadj 1) 2
  have ha20 := congrFun (congrFun hadj 2) 0
  have ha21 := congrFun (congrFun hadj 2) 1
  have ha22 := congrFun (congrFun hadj 2) 2
  simp only [Matrix.transpose_apply, Matrix.cons_val', Matrix.cons_val_zero,
    Matrix.cons_val_one, Matrix.head_cons, Matrix.empty_val',
    Matrix.cons_val_fin_one, Matrix.head_fin_const, Matrix.of_apply,
    Matrix.cons_val_two, Matrix.tail_cons]
    at ha00 ha01 ha02 ha10 ha11 ha12 ha20 ha21 ha22
  exact {
    r0 := by linear_combination hr00
    r1 := by linear_combination hr11
    r2 := by linear_combination hr22
    d01 := by linear_combination hr01
    d02 := by linear_combination hr02
    d12 := by linear_combination hr12
    c0 := by linear_combination hc00
    c1 := by linear_combination hc11
    c2 := by linear_combination hc22
    e01 := by linear_combination hc01
    e02 := by linear_combination hc02
    e12 := by linear_combination hc12
    ka := by linear_combination -ha00
    kb := by linear_combination -ha10
    kc := by linear_combination -ha20
    kd := by linear_combination -ha01
    ke := by linear_combination -ha11
    kf := by linear_combination -ha21
    kg := by linear_combination -ha02
    kh := by linear_combination -ha12
    ki := by linear_combination -ha22 }

/-! ### Rotation round-trip: rank-one identities

For a rotation matrix with entries `a b c; d e f; g h i`, write `K` for the
symmetric 4×4 matrix with diagonal
`1+a-e-i, 1-a+e-i, 1-a-e+i, 1+a+e+i` and off-diagonal entries
`b+d, c+g, f+h` / `h-f, c-g, d-b`: the matrix `4 q qᵀ` of the unit
quaternion `q` representing the rotation.  Each scipy branch takes a column
of `K` as its unnormalised quaternion; the identities below state that `K`
has rank one, which is what makes every branch produce a correct
quaternion. -/

section Minors

variable {a b c d e f g h i : ℝ}

theorem minor_00_11 (hR : RotEqs a b c d e f g h i) : (b + d) ^ 2 = (1 + a - e - i) * (1 - a + e - i) := by
  linear_combination 2 * hR.ki + hR.r0 + hR.r1 - hR.c2

theorem minor_00_22 (hR : RotEqs a b c d e f g h i) : (c + g) ^ 2 = (1 + a - e - i) * (1 - a - e + i) := by
  linear_combination 2 * hR.ke + hR.r0 + hR.r2 - hR.c1

theorem minor_00_33 (hR : RotEqs a b c d e f g h i) : (h - f) ^ 2 = (1 + a - e - i) * (1 + a + e + i) := by
  linear_combination -2 * hR.ka + hR.r1 + hR.r2 - hR.c0

theorem minor_11_22 (hR : RotEqs a b c d e f g h i) : (f + h) ^ 2 = (1 - a + e - i) * (1 - a - e + i) := by
  linear_combination 2 * hR.ka + hR.r1 + hR.r2 - hR.c0

theorem minor_11_33 (hR : RotEqs a b c d e f g h i) : (c - g) ^ 2 = (1 - a + e - i) * (1 + a + e + i) := by
  linear_combination -2 * hR.ke + hR.r0 + hR.r2 - hR.c1

theorem minor_22_33 (hR : RotEqs a b c d e f g h i) : (d - b) ^ 2 = (1 - a - e + i) * (1 + a + e + i) := by
  linear_combination -2 * hR.ki + hR.r0 + hR.r1 - hR.c2

theorem minor_b0_12 (hR : RotEqs a b c d e f g h i) : (b + d) * (c + g) = (1 + a - e - i) * (f + h) := by
  linear_combination -hR.kf - hR.kh + hR.e12 + hR.d12

theorem minor_b0_13 (hR : RotEqs a b c d e f g h i) : (b + d) * (h - f) = (1 + a - e - i) * (c - g) := by
  linear_combination -hR.kc + hR.kg + hR.d02 - hR.e02

theorem minor_b0_23 (hR : RotEqs a b c d e f g h i) : (c + g) * (h - f) = (1 + a - e - i) * (d - b) := by
  linear_combination -hR.kd + hR.kb + hR.e01 - hR.d01

theorem minor_b1_02 (hR : RotEqs a b c d e f g h i) : (b + d) * (f + h) = (1 - a + e - i) * (c + g) := by
  linear_combination -hR.kc - hR.kg + hR.d02 + hR.e02

theorem minor_b1_03 (hR : RotEqs a b c d e f g h i) : (b + d) * (c - g) = (1 - a + e - i) * (h - f) := by
  linear_combination -hR.kh + hR.kf + hR.e12 - hR.d12

theorem minor_b1_23 (hR : RotEqs a b c d e f g h i) : (f + h) * (c - g) = (1 - a + e - i) * (d - b) := by
  linear_combination -hR.kd + hR.kb - hR.e01 + hR.d01

theorem minor_b2_01 (hR : RotEqs a b c d e f g h i) : (c + g) * (f + h) = (1 - a - e + i) * (b + d) := by
  linear_combination -hR.kd - hR.kb + hR.e01 + hR.d01

theorem minor_b2_03 (hR : RotEqs a b c d e f g h i) : (c + g) * (d - b) = (1 - a - e + i) * (h - f) := by
  linear_combination -hR.kh + hR.kf - hR.e12 + hR.d12

theorem minor_b2_13 (hR : RotEqs a b c d e f g h i) : (f + h) * (d - b) = (1 - a - e + i) * (c - g) := by
  linear_combination -hR.kc + hR.kg - hR.d02 + hR.e02

theorem minor_b3_01 (hR : RotEqs a b c d e f g h i) : (h - f) * (c - g) = (1 + a + e + i) * (b + d) := by
  linear_combination -hR.kd - hR.kb - hR.e01 - hR.d01

theorem minor_b3_02 (hR : RotEqs a b c d e f g h i) : (h - f) * (d - b) = (1 + a + e + i) * (c + g) := by
  linear_combination -hR.kc - hR.kg - hR.d02 - hR.e02

theorem minor_b3_12 (hR : RotEqs a b c d e f g h i) : (c - g) * (d - b) = (1 + a + e + i) * (f + h) := by
  linear_combination -hR.kh - hR.kf - hR.e12 - hR.d12

end Minors

/-! ### Rotation round-trip: pivot positivity

In each scipy branch the chosen pivot (the corresponding diagonal entry of
`K`) is strictly positive, so the unnormalised quaternion is nonzero. -/

theorem pivot0_pos {a e i : ℝ} (h1 : a ≥ e) (h2 : a ≥ i)
    (h3 : a ≥ a + e + i) : 0 < 1 + a - e - i := by
  by_contra hc
  push_neg at hc
  linarith

theorem pivot1_pos {a b c d e f g h i : ℝ} (hR : RotEqs a b c d e f g h i)
    (h0 : ¬(a ≥ e ∧ a ≥ i ∧ a ≥ a + e + i)) (h1 : e ≥ i)
    (h2 : e ≥ a + e + i) : 0 < 1 - a + e - i := by
  have hae : a < e := by
    by_cases hae' : a < e
    · exact hae'
    · push_neg at hae'
      rcases not_and_or.mp h0 with hx | hx
      · exact absurd hae' hx
      · rcases not_and_or.mp hx with hy | hy
        · push_neg at hy
          linarith
        · push_neg at hy
          linarith
  have he1 : e ≤ 1 := by
    nlinarith [hR.r1, sq_nonneg d, sq_nonneg f, sq_nonneg (e - 1)]
  by_contra hc
  push_neg at hc
  linarith

theorem pivot2_pos {a b c d e f g h i : ℝ} (hR : RotEqs a b c d e f g h i)
    (h0 : ¬(a ≥ e ∧ a ≥ i ∧ a ≥ a + e + i))
    (h1 : ¬(e ≥ i ∧ e ≥ a + e + i)) (h2 : i ≥ a + e + i) :
    0 < 1 - a - e + i := by
  have hei : e < i := by
    rcases not_and_or.mp h1 with hx | hx
    · push_neg at hx
      exact hx
    · push_neg at hx
      linarith
  have hai : a < i := by
    rcases not_and_or.mp h0 with hx | hx
    · push_neg at hx
      linarith
    · rcases not_and_or.mp hx with hy | hy
      · push_neg at hy
        exact hy
      · push_neg at hy
        linarith
  have hi1 : i ≤ 1 := by
    nlinarith [hR.r2, sq_nonneg g, sq_nonneg h, sq_nonneg (i - 1)]
  by_contra hc
  push_neg at hc
  linarith

theorem pivot3_pos {a e i : ℝ}
    (h0 : ¬(a ≥ e ∧ a ≥ i ∧ a ≥ a + e + i))
    (h1 : ¬(e ≥ i ∧ e ≥ a + e + i)) (h2 : ¬(i ≥ a + e + i)) :
    0 < 1 + a + e + i := by
  push_neg at h2
  have he : e < a + e + i := by
    rcases not_and_or.mp h1 with hx | hx
    · push_neg at hx
      linarith
    · push_neg at hx
      exact hx
  have ha : a < a + e + i := by
    rcases not_and_or.mp h0 with hx | hx
    · push_neg at hx
      linarith
    · rcases not_and_or.mp hx with hy | hy
      · push_neg at hy
        linarith
      · push_neg at hy
        exact hy
  linarith

/-! ### Rotation round-trip: normalisation lemmas -/

theorem qnorm2_nonneg (v : Quat) : 0 ≤ qnorm2 v := by
  unfold qnorm2
  positivity

theorem qnormalize_sq (v : Quat) (u : ℝ) :
    (u / Real.sqrt (qnorm2 v)) ^ 2 = u ^ 2 / qnorm2 v := by
  rw [div_pow, Real.sq_sqrt (qnorm2_nonneg v)]

theorem qnormalize_mul (v : Quat) (u u' : ℝ) :
    u / Real.sqrt (qnorm2 v) * (u' / Real.sqrt (qnorm2 v)) =
      u * u' / qnorm2 v := by
  rw [div_mul_div_comm, Real.mul_self_sqrt (qnorm2_nonneg v)]

/-- Normalising a nonzero quaternion produces a unit quaternion. -/
theorem qnorm2_qnormalize (v : Quat) (hn : qnorm2 v ≠ 0) :
    qnorm2 (qnormalize v) = 1 := by
  show (v.x / Real.sqrt (qnorm2 v)) ^ 2 + (v.y / Real.sqrt (qnorm2 v)) ^ 2 +
      (v.z / Real.sqrt (qnorm2 v)) ^ 2 + (v.w / Real.sqrt (qnorm2 v)) ^ 2 = 1
  rw [qnormalize_sq, qnormalize_sq, qnormalize_sq, qnormalize_sq]
  have : v.x ^ 2 / qnorm2 v + v.y ^ 2 / qnorm2 v + v.z ^ 2 / qnorm2 v +
      v.w ^ 2 / qnorm2 v = qnorm2 v / qnorm2 v := by
    rw [div_add_div_same, div_add_div_same, div_add_div_same]
    rfl
  rw [this, div_self hn]

/-- Normalising a unit quaternion is the identity. -/
theorem qnormalize_of_unit (w : Quat) (hw : qnorm2 w = 1) :
    qnormalize w = w := by
  unfold qnormalize
  rw [hw, Real.sqrt_one, div_one, div_one, div_one, div_one]

/-- `from_quat` is invariant under normalisation of its argument. -/
theorem quaternion_to_matrix_qnormalize (v : Quat) (hn : qnorm2 v ≠ 0) :
    quaternion_to_matrix (qnormalize v) = quaternion_to_matrix v := by
  show unitQuatToMatrix (qnormalize (qnormalize v)) = _
  rw [qnormalize_of_unit _ (qnorm2_qnormalize v hn)]
  rfl

/-- Assembly: if the products of the components of `v` satisfy the nine
rotation-entry identities scaled by `n = qnorm2 v ≠ 0`, then `from_quat`
applied to `v` recovers `M`. -/
theorem branch_assemble (M : M3) (X Y Z W n : ℝ)
    (hn : qnorm2 ⟨X, Y, Z, W⟩ = n) (hn0 : n ≠ 0)
    (e00 : X ^ 2 - Y ^ 2 - Z ^ 2 + W ^ 2 = n * M 0 0)
    (e01 : 2 * (X * Y - Z * W) = n * M 0 1)
    (e02 : 2 * (X * Z + Y * W) = n * M 0 2)
    (e10 : 2 * (X * Y + Z * W) = n * M 1 0)
    (e11 : -X ^ 2 + Y ^ 2 - Z ^ 2 + W ^ 2 = n * M 1 1)
    (e12 : 2 * (Y * Z - X * W) = n * M 1 2)
    (e20 : 2 * (X * Z - Y * W) = n * M 2 0)
    (e21 : 2 * (Y * Z + X * W) = n * M 2 1)
    (e22 : -X ^ 2 - Y ^ 2 + Z ^ 2 + W ^ 2 = n * M 2 2) :
    quaternion_to_matrix (qnormalize ⟨X, Y, Z, W⟩) = M := by
  have hq0 : qnorm2 ⟨X, Y, Z, W⟩ ≠ 0 := by
    rw [hn]
    exact hn0
  have hnn : 0 ≤ n := by
    rw [← hn]
    exact qnorm2_nonneg _
  have hqn : qnormalize ⟨X, Y, Z, W⟩ =
      ⟨X / Real.sqrt n, Y / Real.sqrt n, Z / Real.sqrt n, W / Real.sqrt n⟩ := by
    unfold qnormalize
    rw [hn]
  have f00 : (X / Real.sqrt n) ^ 2 - (Y / Real.sqrt n) ^ 2 -
      (Z / Real.sqrt n) ^ 2 + (W / Real.sqrt n) ^ 2 = M 0 0 := by
    rw [div_pow, div_pow, div_pow, div_pow, Real.sq_sqrt hnn,
      div_sub_div_same, div_sub_div_same, div_add_div_same, e00,
      mul_div_cancel_left₀ _ hn0]
  have f01 : 2 * (X / Real.sqrt n * (Y / Real.sqrt n) -
      Z / Real.sqrt n * (W / Real.sqrt n)) = M 0 1 := by
    rw [div_mul_div_comm, div_mul_div_comm, Real.mul_self_sqrt hnn,
      div_sub_div_same, ← mul_div_assoc, e01, mul_div_cancel_left₀ _ hn0]
  have f02 : 2 * (X / Real.sqrt n * (Z / Real.sqrt n) +
      Y / Real.sqrt n * (W / Real.sqrt n)) = M 0 2 := by
    rw [div_mul_div_comm, div_mul_div_comm, Real.mul_self_sqrt hnn,
      div_add_div_same, ← mul_div_assoc, e02, mul_div_cancel_left₀ _ hn0]
  have f10 : 2 * (X / Real.sqrt n * (Y / Real.sqrt n) +
      Z / Real.sqrt n * (W / Real.sqrt n)) = M 1 0 := by
    rw [div_mul_div_comm, div_mul_div_comm, Real.mul_self_sqrt hnn,
      div_add_div_same, ← mul_div_assoc, e10, mul_div_cancel_left₀ _ hn0]
  have f11 : -(X / Real.sqrt n) ^ 2 + (Y / Real.sqrt n) ^ 2 -
      (Z / Real.sqrt n) ^ 2 + (W / Real.sqrt n) ^ 2 = M 1 1 := by
    rw [div_pow, div_pow, div_pow, div_pow, Real.sq_sqrt hnn, ← neg_div,
      div_add_div_same, div_sub_div_same, div_add_div_same, e11,
      mul_div_cancel_left₀ _ hn0]
  have f12 : 2 * (Y / Real.sqrt n * (Z / Real.sqrt n) -
      X / Real.sqrt n * (W / Real.sqrt n)) = M 1 2 := by
    rw [div_mul_div_comm, div_mul_div_comm, Real.mul_self_sqrt hnn,
      div_sub_div_same, ← mul_div_assoc, e12, mul_div_cancel_left₀ _ hn0]
  have f20 : 2 * (X / Real.sqrt n * (Z / Real.sqrt n) -
      Y / Real.sqrt n * (W / Real.sqrt n)) = M 2 0 := by
    rw [div_mul_div_comm, div_mul_div_comm, Real.mul_self_sqrt hnn,
      div_sub_div_same, ← mul_div_assoc, e20, mul_div_cancel_left₀ _ hn0]
  have f21 : 2 * (Y / Real.sqrt n * (Z / Real.sqrt n) +
      X / Real.sqrt n * (W / Real.sqrt n)) = M 2 1 := by
    rw [div_mul_div_comm, div_mul_div_comm, Real.mul_self_sqrt hnn,
      div_add_div_same, ← mul_div_assoc, e21, mul_div_cancel_left₀ _ hn0]
  have f22 : -(X / Real.sqrt n) ^ 2 - (Y / Real.sqrt n) ^ 2 +
      (Z / Real.sqrt n) ^ 2 + (W / Real.sqrt n) ^ 2 = M 2 2 := by
    rw [div_pow, div_pow, div_pow, div_pow, Real.sq_sqrt hnn, ← neg_div,
      div_sub_div_same, div_add_div_same, div_add_div_same, e22,
      mul_div_cancel_left₀ _ hn0]
  rw [quaternion_to_matrix_qnormalize _ hq0]
  show unitQuatToMatrix (qnormalize ⟨X, Y, Z, W⟩) = M
  rw [hqn, Matrix.eta_fin_three M]
  show !![(X / Real.sqrt n) ^ 2 - (Y / Real.sqrt n) ^ 2 -
        (Z / Real.sqrt n) ^ 2 + (W / Real.sqrt n) ^ 2,
      2 * (X / Real.sqrt n * (Y / Real.sqrt n) -
        Z / Real.sqrt n * (W / Real.sqrt n)),
      2 * (X / Real.sqrt n * (Z / Real.sqrt n) +
        Y / Real.sqrt n * (W / Real.sqrt n));
      2 * (X / Real.sqrt n * (Y / Real.sqrt n) +
        Z / Real.sqrt n * (W / Real.sqrt n)),
      -(X / Real.sqrt n) ^ 2 + (Y / Real.sqrt n) ^ 2 -
        (Z / Real.sqrt n) ^ 2 + (W / Real.sqrt n) ^ 2,
      2 * (Y / Real.sqrt n * (Z / Real.sqrt n) -
        X / Real.sqrt n * (W / Real.sqrt n));
      2 * (X / Real.sqrt n * (Z / Real.sqrt n) -
        Y / Real.sqrt n * (W / Real.sqrt n)),
      2 * (Y / Real.sqrt n * (Z / Real.sqrt n) +
        X / Real.sqrt n * (W / Real.sqrt n)),
      -(X / Real.sqrt n) ^ 2 - (Y / Real.sqrt n) ^ 2 +
        (Z / Real.sqrt n) ^ 2 + (W / Real.sqrt n) ^ 2] =
    !![M 0 0, M 0 1, M 0 2; M 1 0, M 1 1, M 1 2; M 2 0, M 2 1, M 2 2]
  rw [f00, f01, f02, f10, f11, f12, f20, f21, f22]

/-! ### Rotation round-trip: the four scipy branches -/

theorem roundtrip_branch0 (M : M3)
    (hR : RotEqs (M 0 0) (M 0 1) (M 0 2) (M 1 0) (M 1 1) (M 1 2)
      (M 2 0) (M 2 1) (M 2 2))
    (h1 : M 0 0 ≥ M 1 1) (h2 : M 0 0 ≥ M 2 2)
    (h3 : M 0 0 ≥ M 0 0 + M 1 1 + M 2 2) :
    quaternion_to_matrix (qnormalize
      ⟨1 - (M 0 0 + M 1 1 + M 2 2) + 2 * M 0 0,
       M 1 0 + M 0 1, M 2 0 + M 0 2, M 2 1 - M 1 2⟩) = M := by
  have hm1 := minor_00_11 hR
  have hm2 := minor_00_22 hR
  have hm3 := minor_00_33 hR
  have hb12 := minor_b0_12 hR
  have hb13 := minor_b0_13 hR
  have hb23 := minor_b0_23 hR
  have hpiv : 0 < 1 + M 0 0 - M 1 1 - M 2 2 := pivot0_pos h1 h2 h3
  refine branch_assemble M _ _ _ _ (4 * (1 + M 0 0 - M 1 1 - M 2 2)) ?_
    (ne_of_gt (by linarith)) ?_ ?_ ?_ ?_ ?_ ?_ ?_ ?_ ?_
  · show (1 - (M 0 0 + M 1 1 + M 2 2) + 2 * M 0 0) ^ 2 +
      (M 1 0 + M 0 1) ^ 2 + (M 2 0 + M 0 2) ^ 2 + (M 2 1 - M 1 2) ^ 2 =
      4 * (1 + M 0 0 - M 1 1 - M 2 2)
    linear_combination hm1 + hm2 + hm3
  · linear_combination -hm1 - hm2 + hm3
  · linear_combination (-2 : ℝ) * hb23
  · linear_combination (2 : ℝ) * hb13
  · linear_combination (2 : ℝ) * hb23
  · linear_combination hm1 - hm2 + hm3
  · linear_combination (2 : ℝ) * hb12
  · linear_combination (-2 : ℝ) * hb13
  · linear_combination (2 : ℝ) * hb12
  · linear_combination -hm1 + hm2 + hm3

theorem roundtrip_branch1 (M : M3)
    (hR : RotEqs (M 0 0) (M 0 1) (M 0 2) (M 1 0) (M 1 1) (M 1 2)
      (M 2 0) (M 2 1) (M 2 2))
    (h0 : ¬(M 0 0 ≥ M 1 1 ∧ M 0 0 ≥ M 2 2 ∧
      M 0 0 ≥ M 0 0 + M 1 1 + M 2 2))
    (h1 : M 1 1 ≥ M 2 2) (h2 : M 1 1 ≥ M 0 0 + M 1 1 + M 2 2) :
    quaternion_to_matrix (qnormalize
      ⟨M 0 1 + M 1 0, 1 - (M 0 0 + M 1 1 + M 2 2) + 2 * M 1 1,
       M 2 1 + M 1 2, M 0 2 - M 2 0⟩) = M := by
  have hm1 := minor_00_11 hR
  have hm4 := minor_11_22 hR
  have hm5 := minor_11_33 hR
  have hb02 := minor_b1_02 hR
  have hb03 := minor_b1_03 hR
  have hb23 := minor_b1_23 hR
  have hpiv : 0 < 1 - M 0 0 + M 1 1 - M 2 2 := pivot1_pos hR h0 h1 h2
  refine branch_assemble M _ _ _ _ (4 * (1 - M 0 0 + M 1 1 - M 2 2)) ?_
    (ne_of_gt (by linarith)) ?_ ?_ ?_ ?_ ?_ ?_ ?_ ?_ ?_
  · show (M 0 1 + M 1 0) ^ 2 +
      (1 - (M 0 0 + M 1 1 + M 2 2) + 2 * M 1 1) ^ 2 +
      (M 2 1 + M 1 2) ^ 2 + (M 0 2 - M 2 0) ^ 2 =
      4 * (1 - M 0 0 + M 1 1 - M 2 2)
    linear_combination hm1 + hm4 + hm5
  · linear_combination hm1 - hm4 + hm5
  · linear_combination (-2 : ℝ) * hb23
  · linear_combination (2 : ℝ) * hb02
  · linear_combination (2 : ℝ) * hb23
  · linear_combination -hm1 - hm4 + hm5
  · linear_combination (-2 : ℝ) * hb03
  · linear_combination (2 : ℝ) * hb02
  · linear_combination (2 : ℝ) * hb03
  · linear_combination -hm1 + hm4 + hm5

theorem roundtrip_branch2 (M : M3)
    (hR : RotEqs (M 0 0) (M 0 1) (M 0 2) (M 1 0) (M 1 1) (M 1 2)
      (M 2 0) (M 2 1) (M 2 2))
    (h0 : ¬(M 0 0 ≥ M 1 1 ∧ M 0 0 ≥ M 2 2 ∧
      M 0 0 ≥ M 0 0 + M 1 1 + M 2 2))
    (h1 : ¬(M 1 1 ≥ M 2 2 ∧ M 1 1 ≥ M 0 0 + M 1 1 + M 2 2))
    (h2 : M 2 2 ≥ M 0 0 + M 1 1 + M 2 2) :
    quaternion_to_matrix (qnormalize
      ⟨M 0 2 + M 2 0, M 1 2 + M 2 1,
       1 - (M 0 0 + M 1 1 + M 2 2) + 2 * M 2 2, M 1 0 - M 0 1⟩) = M := by
  have hm2 := minor_00_22 hR
  have hm4 := minor_11_22 hR
  have hm6 := minor_22_33 hR
  have hb01 := minor_b2_01 hR
  have hb03 := minor_b2_03 hR
  have hb13 := minor_b2_13 hR
  have hpiv : 0 < 1 - M 0 0 - M 1 1 + M 2 2 := pivot2_pos hR h0 h1 h2
  refine branch_assemble M _ _ _ _ (4 * (1 - M 0 0 - M 1 1 + M 2 2)) ?_
    (ne_of_gt (by linarith)) ?_ ?_ ?_ ?_ ?_ ?_ ?_ ?_ ?_
  · show (M 0 2 + M 2 0) ^ 2 + (M 1 2 + M 2 1) ^ 2 +
      (1 - (M 0 0 + M 1 1 + M 2 2) + 2 * M 2 2) ^ 2 +
      (M 1 0 - M 0 1) ^ 2 = 4 * (1 - M 0 0 - M 1 1 + M 2 2)
    linear_combination hm2 + hm4 + hm6
  · linear_combination hm2 - hm4 + hm6
  · linear_combination (2 : ℝ) * hb01
  · linear_combination (2 : ℝ) * hb13
  · linear_combination (2 : ℝ) * hb01
  · linear_combination -hm2 + hm4 + hm6
  · linear_combination (-2 : ℝ) * hb03
  · linear_combination (-2 : ℝ) * hb13
  · linear_combination (2 : ℝ) * hb03
  · linear_combination -hm2 - hm4 + hm6

theorem roundtrip_branch3 (M : M3)
    (hR : RotEqs (M 0 0) (M 0 1) (M 0 2) (M 1 0) (M 1 1) (M 1 2)
      (M 2 0) (M 2 1) (M 2 2))
    (h0 : ¬(M 0 0 ≥ M 1 1 ∧ M 0 0 ≥ M 2 2 ∧
      M 0 0 ≥ M 0 0 + M 1 1 + M 2 2))
    (h1 : ¬(M 1 1 ≥ M 2 2 ∧ M 1 1 ≥ M 0 0 + M 1 1 + M 2 2))
    (h2 : ¬(M 2 2 ≥ M 0 0 + M 1 1 + M 2 2)) :
    quaternion_to_matrix (qnormalize
      ⟨M 2 1 - M 1 2, M 0 2 - M 2 0, M 1 0 - M 0 1,
       1 + (M 0 0 + M 1 1 + M 2 2)⟩) = M := by
  have hm3 := minor_00_33 hR
  have hm5 := minor_11_33 hR
  have hm6 := minor_22_33 hR
  have hb01 := minor_b3_01 hR
  have hb02 := minor_b3_02 hR
  have hb12 := minor_b3_12 hR
  have hpiv : 0 < 1 + (M 0 0 + M 1 1 + M 2 2) := by
    have := pivot3_pos h0 h1 h2
    linarith
  refine branch_assemble M _ _ _ _
    (4 * (1 + (M 0 0 + M 1 1 + M 2 2))) ?_
    (ne_of_gt (by linarith)) ?_ ?_ ?_ ?_ ?_ ?_ ?_ ?_ ?_
  · show (M 2 1 - M 1 2) ^ 2 + (M 0 2 - M 2 0) ^ 2 +
      (M 1 0 - M 0 1) ^ 2 + (1 + (M 0 0 + M 1 1 + M 2 2)) ^ 2 =
      4 * (1 + (M 0 0 + M 1 1 + M 2 2))
    linear_combination hm3 + hm5 + hm6
  · linear_combination hm3 - hm5 - hm6
  · linear_combination (2 : ℝ) * hb01
  · linear_combination (2 : ℝ) * hb02
  · linear_combination (2 : ℝ) * hb01
  · linear_combination -hm3 + hm5 - hm6
  · linear_combination (2 : ℝ) * hb12
  · linear_combination (2 : ℝ) * hb02
  · linear_combination (2 : ℝ) * hb12
  · linear_combination -hm3 - hm5 + hm6

/-- The round-trip property, shared by C1 and C4: converting a proper
rotation matrix to a quaternion with scipy's `from_matrix` and back with
`from_quat` recovers the matrix exactly (in exact real arithmetic). -/
theorem roundtrip_of_isRotation (M : M3) (h : isRotation M) :
    quaternion_to_matrix (matrix_to_quaternion M) = M := by
  have hR := isRotation_rotEqs M h
  rw [matrix_to_quaternion]
  simp only [rawQuat]
  by_cases h0 : M 0 0 ≥ M 1 1 ∧ M 0 0 ≥ M 2 2 ∧
      M 0 0 ≥ M 0 0 + M 1 1 + M 2 2
  · rw [if_pos h0]
    exact roundtrip_branch0 M hR h0.1 h0.2.1 h0.2.2
  · rw [if_neg h0]
    by_cases h1 : M 1 1 ≥ M 2 2 ∧ M 1 1 ≥ M 0 0 + M 1 1 + M 2 2
    · rw [if_pos h1]
      exact roundtrip_branch1 M hR h0 h1.1 h1.2
    · rw [if_neg h1]
      by_cases h2 : M 2 2 ≥ M 0 0 + M 1 1 + M 2 2
      · rw [if_pos h2]
        exact roundtrip_branch2 M hR h0 h1 h2
      · rw [if_neg h2]
        exact roundtrip_branch3 M hR h0 h1 h2

/-- C1: for every valid proper rotation matrix `M` (orthonormal, determinant
`+1`), `quaternion_to_matrix (matrix_to_quaternion M) = M`.  Idealised over
ℝ, the recovery is exact (the floating-point tolerance of the claim is 0),
and holds without needing the `q ↦ -q` double-cover identification. -/
theorem rotation_roundtrip (M : M3) (h : isRotation M) :
    quaternion_to_matrix (matrix_to_quaternion M) = M :=
  roundtrip_of_isRotation M h

/-- Witness for C1 at the identity rotation. -/
theorem rotation_roundtrip_witness :
    isRotation (1 : M3) ∧
    quaternion_to_matrix (matrix_to_quaternion (1 : M3)) = 1 :=
  ⟨⟨by simp, by simp⟩, rotation_roundtrip 1 ⟨by simp, by simp⟩⟩

/-! ### Known-pose file synthesizer lemmas -/

theorem lookup_isSome_of_mem_keys {β : Type*} (l : List (String × β))
    (a : String) (h : a ∈ l.map Prod.fst) : (l.lookup a).isSome := by
  induction l with
  | nil => simp at h
  | cons p rest ih =>
    by_cases hpa : a == p.1
    · simp [List.lookup, hpa]
    · have h' : a = p.1 ∨ a ∈ rest.map Prod.fst := by
        rw [List.map_cons] at h
        exact List.mem_cons.mp h
      rcases h' with h1 | h1
      · exact absurd (by simp [h1]) hpa
      · simp [List.lookup, hpa, ih h1]

/-- Characterisation of the `images.txt` loop when every extrinsic is
invertible. -/
theorem imagesLoop_spec (pairs : List ((String × M4) × String)) : ∀ i : Nat,
    (∀ p ∈ pairs, p.1.2.det ≠ 0) →
    ∃ ls, imagesLoop i pairs = .ok ls ∧ ls.length = 2 * pairs.length ∧
      ∀ k pe img', pairs[k]? = some (pe, img') →
        ls[2 * k]? = some (mkImageRecord (i + k) pe.2 img') ∧
        ls[2 * k + 1]? = some ImagesLine.blank := by
  induction pairs with
  | nil =>
    intro i _
    exact ⟨[], rfl, rfl, fun k pe img' h => by simp at h⟩
  | cons p rest ih =>
    intro i hdet
    obtain ⟨⟨nm, E⟩, img⟩ := p
    obtain ⟨ls', hok', hlen', hget'⟩ :=
      ih (i + 1) (fun q hq => hdet q (List.mem_cons_of_mem _ hq))
    have hE : E.det ≠ 0 := hdet _ (List.mem_cons_self _ _)
    refine ⟨mkImageRecord i E img :: .blank :: ls', ?_, ?_, ?_⟩
    · show (if E.det = 0 then _ else _) = _
      rw [if_neg hE, hok']
    · simp [hlen']
      omega
    · intro k pe img' hk
      cases k with
      | zero =>
        have hk' : ((nm, E), img) = (pe, img') := by
          simpa using hk
        obtain ⟨h1, h2⟩ := Prod.mk.inj hk'
        subst h1
        subst h2
        refine ⟨by simp, by simp⟩
      | succ k' =>
        have h3 : 2 * (k' + 1) + 1 = (2 * k' + 1 + 1) + 1 := by ring
        have h2 : 2 * (k' + 1) = (2 * k' + 1) + 1 := by ring
        rw [h3, h2]
        simp only [List.getElem?_cons_succ]
        have := hget' k' pe img' (by simpa using hk)
        have hi : i + 1 + k' = i + (k' + 1) := by omega
        rw [hi] at this
        exact this

/-- Success of the `cameras.txt` loop implies every extrinsic file name has
an intrinsic file. -/
theorem camerasLoop_ok_lookup (intr : List (String × M3)) :
    ∀ (pairs : List ((String × M4) × String)) (i : Nat) ls,
    camerasLoop intr i pairs = .ok ls →
    ∀ p ∈ pairs, (intr.lookup p.1.1).isSome := by
  intro pairs
  induction pairs with
  | nil => intro i ls _ p hp; simp at hp
  | cons q rest ih =>
    intro i ls hok p hp
    obtain ⟨⟨nm, E⟩, img⟩ := q
    rcases hl : intr.lookup nm with _ | K
    · rw [show camerasLoop intr i (((nm, E), img) :: rest) =
          match intr.lookup nm with
          | none => .error "FileNotFoundError"
          | some K =>
            match camerasLoop intr (i + 1) rest with
            | .error e => .error e
            | .ok ls => .ok (.record (i + 1) "PINHOLE" 1920 1440
                [K 0 0, K 1 1, K 0 2, K 1 2] :: ls) from rfl, hl] at hok
      exact Except.noConfusion hok
    · rcases List.mem_cons.mp hp with rfl | hp'
      · simp [hl]
      · rcases hrec : camerasLoop intr (i + 1) rest with e | ls'
        · rw [show camerasLoop intr i (((nm, E), img) :: rest) =
              match intr.lookup nm with
              | none => .error "FileNotFoundError"
              | some K =>
                match camerasLoop intr (i + 1) rest with
                | .error e => .error e
                | .ok ls => .ok (.record (i + 1) "PINHOLE" 1920 1440
                    [K 0 0, K 1 1, K 0 2, K 1 2] :: ls) from rfl,
            hl, hrec] at hok
          exact Except.noConfusion hok
        · exact ih (i + 1) ls' hrec p hp'

/-- Characterisation of the `cameras.txt` loop when every extrinsic file
name has an intrinsic file. -/
theorem camerasLoop_spec (intr : List (String × M3))
    (pairs : List ((String × M4) × String)) : ∀ i : Nat,
    (∀ p ∈ pairs, (intr.lookup p.1.1).isSome) →
    ∃ ls, camerasLoop intr i pairs = .ok ls ∧ ls.length = pairs.length ∧
      ∀ k pe img', pairs[k]? = some (pe, img') →
        ∃ K, intr.lookup pe.1 = some K ∧
          ls[k]? = some (CamerasLine.record (i + k + 1) "PINHOLE" 1920 1440
            [K 0 0, K 1 1, K 0 2, K 1 2]) := by
  induction pairs with
  | nil =>
    intro i _
    exact ⟨[], rfl, rfl, fun k pe img' h => by simp at h⟩
  | cons p rest ih =>
    intro i hlook
    obtain ⟨⟨nm, E⟩, img⟩ := p
    obtain ⟨ls', hok', hlen', hget'⟩ :=
      ih (i + 1) (fun q hq => hlook q (List.mem_cons_of_mem _ hq))
    have hnm : (intr.lookup nm).isSome := hlook _ (List.mem_cons_self _ _)
    rcases hl : intr.lookup nm with _ | K
    · rw [hl] at hnm
      exact absurd hnm (by simp)
    refine ⟨CamerasLine.record (i + 1) "PINHOLE" 1920 1440
        [K 0 0, K 1 1, K 0 2, K 1 2] :: ls', ?_, ?_, ?_⟩
    · show (match intr.lookup nm with
        | none => (Except.error "FileNotFoundError" :
            Except String (List CamerasLine))
        | some K =>
          match camerasLoop intr (i + 1) rest with
          | .error e => .error e
          | .ok ls => .ok (.record (i + 1) "PINHOLE" 1920 1440
              [K 0 0, K 1 1, K 0 2, K 1 2] :: ls)) = _
      rw [hl, hok']
    · simp [hlen']
    · intro k pe img' hk
      cases k with
      | zero =>
        have hk' : ((nm, E), img) = (pe, img') := by
          simpa using hk
        obtain ⟨h1, h2⟩ := Prod.mk.inj hk'
        subst h1
        subst h2
        refine ⟨K, hl, by simp⟩
      | succ k' =>
        simp only [List.getElem?_cons_succ]
        obtain ⟨K', hK', hls'⟩ := hget' k' pe img' (by simpa using hk)
        refine ⟨K', hK', ?_⟩
        have hi : i + 1 + k' + 1 = i + (k' + 1) + 1 := by omega
        rw [hi] at hls'
        exact hls'

/-- Full success characterisation of `create_mobile_brick_colmap_files`:
when every zipped extrinsic is invertible and has an intrinsic file of the
same name, the three files are written, with one record+blank pair per
zipped extrinsic/image pair in `images.txt`, one record per pair in
`cameras.txt`, matching 1-based ids, and an empty `points3D.txt`. -/
theorem create_ok (poseDir : List (String × M4))
    (intrinsicDir : List (String × M3)) (imagesDir : List String)
    (hdet : ∀ p ∈ (sortOn Prod.fst poseDir).zip (sortOn id imagesDir),
      p.1.2.det ≠ 0)
    (hlook : ∀ p ∈ (sortOn Prod.fst poseDir).zip (sortOn id imagesDir),
      (intrinsicDir.lookup p.1.1).isSome) :
    ∃ imgLines camLines,
      create_mobile_brick_colmap_files poseDir intrinsicDir imagesDir =
        .ok (imagesHeader ++ imgLines, camerasHeader ++ camLines, []) ∧
      imgLines.length = 2 * min poseDir.length imagesDir.length ∧
      camLines.length = min poseDir.length imagesDir.length ∧
      ∀ k pe img',
        ((sortOn Prod.fst poseDir).zip (sortOn id imagesDir))[k]? =
          some (pe, img') →
        imgLines[2 * k]? = some (mkImageRecord k pe.2 img') ∧
        imgLines[2 * k + 1]? = some ImagesLine.blank ∧
        ∃ K, intrinsicDir.lookup pe.1 = some K ∧
          camLines[k]? = some (CamerasLine.record (k + 1) "PINHOLE" 1920 1440
            [K 0 0, K 1 1, K 0 2, K 1 2]) := by
  obtain ⟨ls1, h1, hlen1, hget1⟩ := imagesLoop_spec _ 0 hdet
  obtain ⟨ls2, h2, hlen2, hget2⟩ := camerasLoop_spec intrinsicDir _ 0 hlook
  refine ⟨ls1, ls2, ?_, ?_, ?_, ?_⟩
  · simp only [create_mobile_brick_colmap_files]
    rw [h1, h2]
  · rw [hlen1, List.length_zip, sortOn_length, sortOn_length, inf_eq_min]
  · rw [hlen2, List.length_zip, sortOn_length, sortOn_length, inf_eq_min]
  · intro k pe img' hk
    obtain ⟨g1, g2⟩ := hget1 k pe img' hk
    obtain ⟨K, gK, g3⟩ := hget2 k pe img' hk
    refine ⟨by simpa using g1, g2, K, gK, by simpa using g3⟩

/-- The transpose of a proper rotation is a proper rotation. -/
theorem isRotation_transpose (Rm : M3) (hR : isRotation Rm) :
    isRotation Rm.transpose := by
  constructor
  · rw [Matrix.transpose_transpose]
    exact Matrix.mul_eq_one_comm.mp hR.1
  · rw [Matrix.det_transpose]
    exact hR.2

/-- `np.linalg.inv` of a rigid camera-to-world matrix `[R t; 0 1]` is the
rigid world-to-camera matrix `[Rᵀ -Rᵀt; 0 1]`. -/
theorem rigid_inv (Rm : M3) (tv : Matrix (Fin 3) (Fin 1) ℝ)
    (hR : isRotation Rm) :
    (rigid Rm tv)⁻¹ = rigid Rm.transpose (-(Rm.transpose * tv)) := by
  apply Matrix.inv_eq_right_inv
  unfold rigid
  rw [Matrix.fromBlocks_multiply]
  have h1 : Rm * Rm.transpose = 1 := Matrix.mul_eq_one_comm.mp hR.1
  rw [Matrix.mul_neg, ← Matrix.mul_assoc, h1]
  simp [Matrix.fromBlocks_one]

/-- C3: given `M` lexicographically aligned pose/intrinsic/image file
triples (invertible extrinsics), the call succeeds and writes: an
images-list file with the three header comments and exactly `M`
metadata+blank-observation line pairs carrying 1-based sequential image and
camera ids `1..M`; a cameras-list file with its header comments and exactly
`M` lines, the `k`-th being `(k+1) PINHOLE 1920 1440 [fx fy cx cy]` with the
four parameters read from entries `(0,0), (1,1), (0,2), (1,2)` of the
intrinsic matrix of the same file name, ids matching the images file; and a
points-list file that is present and empty. -/
theorem create_mobile_brick_files_spec (Mn : Nat)
    (poseDir : List (String × M4)) (intrinsicDir : List (String × M3))
    (imagesDir : List String)
    (hM1 : poseDir.length = Mn) (hM2 : intrinsicDir.length = Mn)
    (hM3 : imagesDir.length = Mn)
    (halign : (sortOn Prod.fst poseDir).map Prod.fst =
      (sortOn Prod.fst intrinsicDir).map Prod.fst)
    (hdet : ∀ p ∈ poseDir, p.2.det ≠ 0) :
    ∃ imgLines camLines,
      create_mobile_brick_colmap_files poseDir intrinsicDir imagesDir =
        .ok (imagesHeader ++ imgLines, camerasHeader ++ camLines, []) ∧
      imgLines.length = 2 * Mn ∧ camLines.length = Mn ∧
      ∀ k pe img',
        ((sortOn Prod.fst poseDir).zip (sortOn id imagesDir))[k]? =
          some (pe, img') →
        (∃ qw qx qy qz tx ty tz, imgLines[2 * k]? =
          some (ImagesLine.record (k + 1) qw qx qy qz tx ty tz (k + 1)
            img')) ∧
        imgLines[2 * k + 1]? = some ImagesLine.blank ∧
        ∃ K, intrinsicDir.lookup pe.1 = some K ∧
          camLines[k]? = some (CamerasLine.record (k + 1) "PINHOLE" 1920 1440
            [K 0 0, K 1 1, K 0 2, K 1 2]) := by
  have hdet' : ∀ p ∈ (sortOn Prod.fst poseDir).zip (sortOn id imagesDir),
      p.1.2.det ≠ 0 := by
    intro p hp
    obtain ⟨pe, img'⟩ := p
    have hmem : pe ∈ sortOn Prod.fst poseDir := (List.of_mem_zip hp).1
    exact hdet pe ((sortOn_perm Prod.fst poseDir).mem_iff.mp hmem)
  have hlook : ∀ p ∈ (sortOn Prod.fst poseDir).zip (sortOn id imagesDir),
      (intrinsicDir.lookup p.1.1).isSome := by
    intro p hp
    obtain ⟨pe, img'⟩ := p
    have hmem : pe ∈ sortOn Prod.fst poseDir := (List.of_mem_zip hp).1
    have hkey : pe.1 ∈ (sortOn Prod.fst poseDir).map Prod.fst :=
      List.mem_map_of_mem _ hmem
    rw [halign] at hkey
    have hkey2 : pe.1 ∈ intrinsicDir.map Prod.fst :=
      ((sortOn_perm Prod.fst intrinsicDir).map Prod.fst).mem_iff.mp hkey
    exact lookup_isSome_of_mem_keys intrinsicDir pe.1 hkey2
  obtain ⟨imgLines, camLines, hok, hl1, hl2, hprops⟩ :=
    create_ok poseDir intrinsicDir imagesDir hdet' hlook
  have hmin : min poseDir.length imagesDir.length = Mn := by
    rw [hM1, hM3]
    exact min_self Mn
  refine ⟨imgLines, camLines, hok, by rw [hl1, hmin], by rw [hl2, hmin], ?_⟩
  intro k pe img' hk
  obtain ⟨g1, g2, K, gK, g3⟩ := hprops k pe img' hk
  exact ⟨⟨_, _, _, _, _, _, _, g1⟩, g2, K, gK, g3⟩

/-- C4: for a rigid camera-to-world extrinsic `E = [R t; 0 1]` supplied to
`create_mobile_brick_colmap_files` (appearing at zip position `k`), the pose
record written at that position carries exactly the rotation and
translation of `inverse(E)`: its quaternion components convert back (in
scipy's `(x, y, z, w)` order) to the top-left 3×3 block of `E⁻¹`, and its
`TX TY TZ` are the first three entries of the last column of `E⁻¹`. -/
theorem written_pose_encodes_inverse (poseDir : List (String × M4))
    (intrinsicDir : List (String × M3)) (imagesDir : List String)
    (Rm : M3) (tv : Matrix (Fin 3) (Fin 1) ℝ) (k : Nat)
    (nm imgName : String) (hRm : isRotation Rm)
    (hdet : ∀ p ∈ (sortOn Prod.fst poseDir).zip (sortOn id imagesDir),
      p.1.2.det ≠ 0)
    (hlook : ∀ p ∈ (sortOn Prod.fst poseDir).zip (sortOn id imagesDir),
      (intrinsicDir.lookup p.1.1).isSome)
    (hk : ((sortOn Prod.fst poseDir).zip (sortOn id imagesDir))[k]? =
      some ((nm, rigid Rm tv), imgName)) :
    ∃ imgLines camLines qx qy qz qw,
      create_mobile_brick_colmap_files poseDir intrinsicDir imagesDir =
        .ok (imagesHeader ++ imgLines, camerasHeader ++ camLines, []) ∧
      imgLines[2 * k]? = some (ImagesLine.record (k + 1) qw qx qy qz
        (((rigid Rm tv)⁻¹).toBlocks₁₂ 0 0)
        (((rigid Rm tv)⁻¹).toBlocks₁₂ 1 0)
        (((rigid Rm tv)⁻¹).toBlocks₁₂ 2 0)
        (k + 1) imgName) ∧
      quaternion_to_matrix ⟨qx, qy, qz, qw⟩ =
        ((rigid Rm tv)⁻¹).toBlocks₁₁ := by
  obtain ⟨imgLines, camLines, hok, _, _, hprops⟩ :=
    create_ok poseDir intrinsicDir imagesDir hdet hlook
  obtain ⟨g1, _, _⟩ := hprops k _ _ hk
  refine ⟨imgLines, camLines,
    (matrix_to_quaternion
      (((rigid Rm tv)⁻¹).toBlocks₁₁)).x,
    (matrix_to_quaternion
      (((rigid Rm tv)⁻¹).toBlocks₁₁)).y,
    (matrix_to_quaternion
      (((rigid Rm tv)⁻¹).toBlocks₁₁)).z,
    (matrix_to_quaternion
      (((rigid Rm tv)⁻¹).toBlocks₁₁)).w,
    hok, g1, ?_⟩
  show quaternion_to_matrix
    (matrix_to_quaternion (((rigid Rm tv)⁻¹).toBlocks₁₁)) = _
  apply roundtrip_of_isRotation
  rw [rigid_inv Rm tv hRm]
  unfold rigid
  rw [Matrix.toBlocks_fromBlocks₁₁]
  exact isRotation_transpose Rm hRm

/-- C10: both loops iterate over `zip(extrinsics_files, image_files)`, so
on success both files carry `min(#extrinsics, #images)` records, with no
constraint tying the record count to the number of intrinsic files; and the
camera loop loads each intrinsic under the extrinsic file's name, so the
call fails when the intrinsics directory lacks a file of that name. -/
theorem record_counts_follow_zip (poseDir : List (String × M4))
    (intrinsicDir : List (String × M3)) (imagesDir : List String)
    (hdet : ∀ p ∈ (sortOn Prod.fst poseDir).zip (sortOn id imagesDir),
      p.1.2.det ≠ 0) :
    ((∀ p ∈ (sortOn Prod.fst poseDir).zip (sortOn id imagesDir),
        (intrinsicDir.lookup p.1.1).isSome) →
      ∃ imgLines camLines,
        create_mobile_brick_colmap_files poseDir intrinsicDir imagesDir =
          .ok (imagesHeader ++ imgLines, camerasHeader ++ camLines, []) ∧
        imgLines.length = 2 * min poseDir.length imagesDir.length ∧
        camLines.length = min poseDir.length imagesDir.length) ∧
    ((∃ p, p ∈ (sortOn Prod.fst poseDir).zip (sortOn id imagesDir) ∧
        intrinsicDir.lookup p.1.1 = none) →
      ∃ e, create_mobile_brick_colmap_files poseDir intrinsicDir imagesDir =
        .error e) := by
  constructor
  · intro hlook
    obtain ⟨imgLines, camLines, hok, hl1, hl2, _⟩ :=
      create_ok poseDir intrinsicDir imagesDir hdet hlook
    exact ⟨imgLines, camLines, hok, hl1, hl2⟩
  · rintro ⟨p, hp, hnone⟩
    obtain ⟨ls1, h1, _, _⟩ := imagesLoop_spec _ 0 hdet
    rcases h2 : camerasLoop intrinsicDir 0
        ((sortOn Prod.fst poseDir).zip (sortOn id imagesDir)) with e | ls2
    · refine ⟨e, ?_⟩
      simp only [create_mobile_brick_colmap_files]
      rw [h1, h2]
    · exfalso
      have := camerasLoop_ok_lookup intrinsicDir _ 0 ls2 h2 p hp
      rw [hnone] at this
      simp at this

/-- The determinant of the sample rigid extrinsic is 1. -/
theorem det_rigid_one : (rigid 1 0).det = 1 := by
  unfold rigid
  rw [Matrix.det_fromBlocks_zero₂₁]
  simp

/-- The sorted sample pose/image zip evaluates to its one pair. -/
theorem sample_zip_eq :
    (sortOn Prod.fst samplePoseDir).zip (sortOn id sampleImagesDir) =
      [(("000000.txt", rigid 1 0), "000000.jpg")] := rfl

/-- Every sample zip pair has an invertible extrinsic. -/
theorem sample_hdet :
    ∀ p ∈ (sortOn Prod.fst samplePoseDir).zip (sortOn id sampleImagesDir),
      p.1.2.det ≠ 0 := by
  intro p hp
  rw [sample_zip_eq] at hp
  have hp' : p = (("000000.txt", rigid 1 0), "000000.jpg") := by
    simpa using hp
  rw [hp']
  show (rigid 1 0).det ≠ 0
  rw [det_rigid_one]
  exact one_ne_zero

/-- Every sample zip pair's name has an intrinsic file. -/
theorem sample_hlook :
    ∀ p ∈ (sortOn Prod.fst samplePoseDir).zip (sortOn id sampleImagesDir),
      (sampleIntrDir.lookup p.1.1).isSome := by
  intro p hp
  rw [sample_zip_eq] at hp
  have hp' : p = (("000000.txt", rigid 1 0), "000000.jpg") := by
    simpa using hp
  rw [hp']
  rfl

/-- Witness for C3 on a concrete aligned one-file triple. -/
theorem create_mobile_brick_files_spec_witness :
    ∃ imgLines camLines,
      create_mobile_brick_colmap_files samplePoseDir sampleIntrDir
        sampleImagesDir =
        .ok (imagesHeader ++ imgLines, camerasHeader ++ camLines, []) ∧
      imgLines.length = 2 * 1 ∧ camLines.length = 1 ∧
      ∀ k pe img',
        ((sortOn Prod.fst samplePoseDir).zip
          (sortOn id sampleImagesDir))[k]? = some (pe, img') →
        (∃ qw qx qy qz tx ty tz, imgLines[2 * k]? =
          some (ImagesLine.record (k + 1) qw qx qy qz tx ty tz (k + 1)
            img')) ∧
        imgLines[2 * k + 1]? = some ImagesLine.blank ∧
        ∃ K, sampleIntrDir.lookup pe.1 = some K ∧
          camLines[k]? = some (CamerasLine.record (k + 1) "PINHOLE" 1920 1440
            [K 0 0, K 1 1, K 0 2, K 1 2]) :=
  create_mobile_brick_files_spec 1 samplePoseDir sampleIntrDir
    sampleImagesDir rfl rfl rfl rfl
    (by
      intro p hp
      rw [show samplePoseDir = [("000000.txt", rigid 1 0)] from rfl] at hp
      have hp' : p = ("000000.txt", rigid 1 0) := by simpa using hp
      rw [hp']
      show (rigid 1 0).det ≠ 0
      rw [det_rigid_one]
      exact one_ne_zero)

/-- Witness for C4 on the sample rigid extrinsic `[I 0; 0 1]`. -/
theorem written_pose_encodes_inverse_witness :
    ∃ imgLines camLines qx qy qz qw,
      create_mobile_brick_colmap_files samplePoseDir sampleIntrDir
        sampleImagesDir =
        .ok (imagesHeader ++ imgLines, camerasHeader ++ camLines, []) ∧
      imgLines[2 * 0]? = some (ImagesLine.record (0 + 1) qw qx qy qz
        (((rigid 1 0)⁻¹).toBlocks₁₂ 0 0)
        (((rigid 1 0)⁻¹).toBlocks₁₂ 1 0)
        (((rigid 1 0)⁻¹).toBlocks₁₂ 2 0)
        (0 + 1) "000000.jpg") ∧
      quaternion_to_matrix ⟨qx, qy, qz, qw⟩ = ((rigid 1 0)⁻¹).toBlocks₁₁ :=
  written_pose_encodes_inverse samplePoseDir sampleIntrDir sampleImagesDir
    1 0 0 "000000.txt" "000000.jpg" ⟨by simp, by simp⟩
    sample_hdet sample_hlook (by rw [sample_zip_eq]; rfl)

/-- Witness for C10's success half on the sample directories. -/
theorem record_counts_follow_zip_witness :
    ∃ imgLines camLines,
      create_mobile_brick_colmap_files samplePoseDir sampleIntrDir
        sampleImagesDir =
        .ok (imagesHeader ++ imgLines, camerasHeader ++ camLines, []) ∧
      imgLines.length = 2 * min samplePoseDir.length sampleImagesDir.length ∧
      camLines.length = min samplePoseDir.length sampleImagesDir.length :=
  (record_counts_follow_zip samplePoseDir sampleIntrDir sampleImagesDir
    sample_hdet).1 sample_hlook

end ColmapUtils
